import Mathlib

/-!
A shallow embedding of the `const-decoder` crate: the generic positional-notation
decoding engine (alphabet lookup, bit packing, length computation, whitespace and
PEM filtering) together with the entry points and preset macros declared in
`src/macros.rs`.  Bytes are modelled as `Nat` (all inputs come from `&[u8]`, so
only values below 256 occur), fallible computations return `Except DecodeError`.
-/

namespace ConstDecoder

/-- Byte list corresponding to an ASCII string literal. -/
def str (s : String) : List Nat := s.data.map Char.toNat

/-- Modelled from the spec: the error taxonomy of §7 (`decoder.rs` is not under
`src/`).  `InvalidSymbol`/`InvalidPadding` positions are elided — no claim in
scope depends on them. -/
inductive DecodeError
  | invalidSymbol
  | invalidPadding
  | nonCanonicalTrailingBits
  | malformedEnvelope
  | lengthMismatch
  deriving DecidableEq, Repr

/-- The `Decoder` enum of the crate: named alphabets plus caller-supplied
custom alphabets (`Decoder::custom` builds the `Custom` variant from an ordered
symbol string). -/
inductive Decoder
  | Hex
  | Base64
  | Base64Url
  | custom (symbols : List Nat)
  deriving DecidableEq, Repr

/-- The `Skipper` enum of `wrappers.rs` (named in `src/macros.rs`): which
pre-filter is active. -/
inductive Skipper
  | Whitespace
  | Pem
  deriving DecidableEq, Repr

/-- The `SkipWhitespace` wrapper struct: a decoder with the whitespace filter. -/
structure SkipWhitespace where
  decoder : Decoder
  deriving DecidableEq, Repr

/-- Position (0-based) of a byte in a custom alphabet, i.e. its symbol value. -/
def lookupIdx : List Nat → Nat → Option Nat
  | [], _ => none
  | c :: rest, b => if c = b then some 0 else (lookupIdx rest b).map (· + 1)

/-- Modelled from the spec: §4.1 alphabet lookup `value_of(byte)`, returning the
symbol value in `[0, radix)` or `none`.  Hex is case-insensitive (§3); custom
alphabets map each listed byte to its position, case-sensitively (§4.1). -/
def value_of : Decoder → Nat → Option Nat
  | Decoder.Hex, b =>
    if 48 ≤ b ∧ b ≤ 57 then some (b - 48)
    else if 97 ≤ b ∧ b ≤ 102 then some (b - 87)
    else if 65 ≤ b ∧ b ≤ 70 then some (b - 55)
    else none
  | Decoder.Base64, b =>
    if 65 ≤ b ∧ b ≤ 90 then some (b - 65)
    else if 97 ≤ b ∧ b ≤ 122 then some (b - 71)
    else if 48 ≤ b ∧ b ≤ 57 then some (b + 4)
    else if b = 43 then some 62
    else if b = 47 then some 63
    else none
  | Decoder.Base64Url, b =>
    if 65 ≤ b ∧ b ≤ 90 then some (b - 65)
    else if 97 ≤ b ∧ b ≤ 122 then some (b - 71)
    else if 48 ≤ b ∧ b ≤ 57 then some (b + 4)
    else if b = 45 then some 62
    else if b = 95 then some 63
    else none
  | Decoder.custom syms, b => lookupIdx syms b

/-- Bits carried by one symbol: `log2(radix)` (§2); the radix of a custom
alphabet is its length (§3), constrained to 16/32/64. -/
def symBits : Decoder → Nat
  | Decoder.Hex => 4
  | Decoder.Base64 => 6
  | Decoder.Base64Url => 6
  | Decoder.custom syms =>
    if syms.length = 16 then 4 else if syms.length = 32 then 5 else 6

/-- Whether `=` padding is recognised: only the Base64 alphabets use `=`
padding (§3, §6); hex and the base32-family custom alphabets are unpadded. -/
def hasPadding : Decoder → Bool
  | Decoder.Base64 => true
  | Decoder.Base64Url => true
  | _ => false

/-- Symbols per byte-aligned block: `lcm(8, bits) / bits` (§2, §4.2). -/
def blockSize (d : Decoder) : Nat := 8 / Nat.gcd 8 (symBits d)

/-- ASCII whitespace recognised by the whitespace filter (§4.3): space, tab,
CR, LF. -/
def isWs (b : Nat) : Bool := b == 32 || b == 9 || b == 13 || b == 10

/-- Whitespace filter: drop all ASCII whitespace, keep everything else in
order (§4.3). -/
def skipWs (input : List Nat) : List Nat := input.filter (fun b => !isWs b)

/-- Split a byte list into lines at LF bytes (separator convention: the result
is always nonempty and the LF bytes are consumed). -/
def splitLines : List Nat → List (List Nat)
  | [] => [[]]
  | b :: rest =>
    if b = 10 then [] :: splitLines rest
    else
      match splitLines rest with
      | [] => [[b]]
      | l :: ls => (b :: l) :: ls

/-- Trim ASCII whitespace from both ends of a line. -/
def trimWs (l : List Nat) : List Nat :=
  ((l.dropWhile isWs).reverse.dropWhile isWs).reverse

/-- `-----BEGIN` marker bytes. -/
def beginMarker : List Nat := str "-----BEGIN"

/-- `-----END` marker bytes. -/
def endMarker : List Nat := str "-----END"

/-- `-----` banner terminator bytes. -/
def dashes5 : List Nat := str "-----"

/-- Modelled from the spec: §4.3 — a line whose trimmed content starts with
`-----BEGIN` and ends with `-----`. -/
def isBeginBanner (l : List Nat) : Bool :=
  beginMarker.isPrefixOf (trimWs l) && dashes5.isSuffixOf (trimWs l)

/-- Modelled from the spec: §4.3 — a line whose trimmed content starts with
`-----END` and ends with `-----`. -/
def isEndBanner (l : List Nat) : Bool :=
  endMarker.isPrefixOf (trimWs l) && dashes5.isSuffixOf (trimWs l)

/-- Modelled from the spec: §4.3 PEM filter, after the BEGIN banner — collect
line content until the END banner; everything after the END banner is ignored;
a missing END banner is a `MalformedEnvelope` failure. -/
def pemAfterBegin : List (List Nat) → Except DecodeError (List Nat)
  | [] => Except.error DecodeError.malformedEnvelope
  | l :: rest =>
    if isEndBanner l then Except.ok []
    else
      match pemAfterBegin rest with
      | Except.ok payload => Except.ok (l ++ payload)
      | Except.error e => Except.error e

/-- Modelled from the spec: §4.3 PEM filter — scan for the BEGIN banner line;
a missing BEGIN banner is a `MalformedEnvelope` failure. -/
def pemFindBegin : List (List Nat) → Except DecodeError (List Nat)
  | [] => Except.error DecodeError.malformedEnvelope
  | l :: rest => if isBeginBanner l then pemAfterBegin rest else pemFindBegin rest

/-- Payload of a PEM envelope: the concatenated content of the lines strictly
between the BEGIN and END banner lines. -/
def pemPayload (input : List Nat) : Except DecodeError (List Nat) :=
  pemFindBegin (splitLines input)

/-- Modelled from the spec: §4.3 — the filter layer producing the
`EncodedSymbolStream` (the non-skipped bytes, in order).  The PEM filter
strips banner lines and then skips whitespace between them (§4.3). -/
def applyFilter : Option Skipper → List Nat → Except DecodeError (List Nat)
  | none, input => Except.ok input
  | some Skipper.Whitespace, input => Except.ok (skipWs input)
  | some Skipper.Pem, input =>
    match pemPayload input with
    | Except.error e => Except.error e
    | Except.ok payload => Except.ok (skipWs payload)

/-- Modelled from the spec: §4.2 — scan the filtered stream, validating each
byte: padding (`=`, only for padded alphabets) must be contiguous at the very
end; any non-alphabet, non-padding byte is an `InvalidSymbol` failure.
Returns the symbol values in order and the padding count. -/
def scanSyms (d : Decoder) : List Nat → Bool → Except DecodeError (List Nat × Nat)
  | [], _ => Except.ok ([], 0)
  | b :: rest, padSeen =>
    if hasPadding d && b == 61 then
      match scanSyms d rest true with
      | Except.ok (vs, p) => Except.ok (vs, p + 1)
      | Except.error e => Except.error e
    else
      match value_of d b with
      | some v =>
        if padSeen then Except.error DecodeError.invalidPadding
        else
          match scanSyms d rest padSeen with
          | Except.ok (vs, p) => Except.ok (v :: vs, p)
          | Except.error e => Except.error e
      | none => Except.error DecodeError.invalidSymbol

/-- Modelled from the spec: §4.4 — the same validating scan, but "without
performing value decoding": it only counts significant symbols `S` and padding
characters `P`. -/
def lenScan (d : Decoder) : List Nat → Bool → Except DecodeError (Nat × Nat)
  | [], _ => Except.ok (0, 0)
  | b :: rest, padSeen =>
    if hasPadding d && b == 61 then
      match lenScan d rest true with
      | Except.ok (s, p) => Except.ok (s, p + 1)
      | Except.error e => Except.error e
    else
      match value_of d b with
      | some _ =>
        if padSeen then Except.error DecodeError.invalidPadding
        else
          match lenScan d rest padSeen with
          | Except.ok (s, p) => Except.ok (s + 1, p)
          | Except.error e => Except.error e
      | none => Except.error DecodeError.invalidSymbol

/-- Padding-count rule (§4.2): padding, when present, must bring the total
symbol count up to the alphabet's block size. -/
def padOk (d : Decoder) (s p : Nat) : Bool :=
  p == 0 || (s + p) % blockSize d == 0

/-- Modelled from the spec: §4.2 bit-packing — shift each symbol value into an
accumulator; whenever at least 8 bits are held, emit the top 8 bits as an
output byte.  Returns the output bytes, the final accumulator (the held
trailing bits) and the final held-bit count. -/
def pack (bits : Nat) : List Nat → Nat → Nat → List Nat × Nat × Nat
  | [], acc, n => ([], acc, n)
  | v :: rest, acc, n =>
    if 8 ≤ n + bits then
      ((acc * 2 ^ bits + v) / 2 ^ (n + bits - 8) ::
          (pack bits rest ((acc * 2 ^ bits + v) % 2 ^ (n + bits - 8)) (n + bits - 8)).1,
        (pack bits rest ((acc * 2 ^ bits + v) % 2 ^ (n + bits - 8)) (n + bits - 8)).2)
    else
      pack bits rest (acc * 2 ^ bits + v) (n + bits)

/-- Modelled from the spec: `Decoder::do_decode_len` — §4.4 length
computation: filter, validating count scan, padding-count check, output length
`floor(S * bits / 8)`. -/
def Decoder.do_decode_len (d : Decoder) (input : List Nat) (sk : Option Skipper) :
    Except DecodeError Nat :=
  match applyFilter sk input with
  | Except.error e => Except.error e
  | Except.ok stream =>
    match lenScan d stream false with
    | Except.error e => Except.error e
    | Except.ok (s, p) =>
      if padOk d s p then Except.ok (s * symBits d / 8)
      else Except.error DecodeError.invalidPadding

/-- Modelled from the spec: `Decoder::decode` — §4.2 decoding: filter,
validating symbol scan, padding-count check, bit-packing; any nonzero held
trailing bits after the final group are a `NonCanonicalTrailingBits`
failure. -/
def Decoder.decode (d : Decoder) (input : List Nat) (sk : Option Skipper) :
    Except DecodeError (List Nat) :=
  match applyFilter sk input with
  | Except.error e => Except.error e
  | Except.ok stream =>
    match scanSyms d stream false with
    | Except.error e => Except.error e
    | Except.ok (vs, p) =>
      if padOk d vs.length p then
        if (pack (symBits d) vs 0 0).2.1 = 0 then Except.ok (pack (symBits d) vs 0 0).1
        else Except.error DecodeError.nonCanonicalTrailingBits
      else Except.error DecodeError.invalidPadding

/-- `DecoderWrapper<Decoder>::decode_len` (`src/macros.rs` lines 124–126):
`self.0.do_decode_len(input, None)`. -/
def DecoderWrapper.decode_len (d : Decoder) (input : List Nat) : Except DecodeError Nat :=
  Decoder.do_decode_len d input none

/-- `DecoderWrapper<Decoder>::decode` (`src/macros.rs` lines 128–130):
`self.0.decode(input)` with no skipper. -/
def DecoderWrapper.decode (d : Decoder) (input : List Nat) : Except DecodeError (List Nat) :=
  Decoder.decode d input none

/-- `DecoderWrapper<SkipWhitespace>::decode_len` (`src/macros.rs` lines
134–137): the wrapped decoder with `Skipper::Whitespace`. -/
def DecoderWrapper.ws_decode_len (w : SkipWhitespace) (input : List Nat) :
    Except DecodeError Nat :=
  Decoder.do_decode_len w.decoder input (some Skipper.Whitespace)

/-- Modelled from the spec: `SkipWhitespace::decode` (`wrappers.rs` is not
under `src/`) — decode with the whitespace filter active. -/
def SkipWhitespace.decode (w : SkipWhitespace) (input : List Nat) :
    Except DecodeError (List Nat) :=
  Decoder.decode w.decoder input (some Skipper.Whitespace)

/-- `DecoderWrapper<SkipWhitespace>::decode` (`src/macros.rs` lines 139–141). -/
def DecoderWrapper.ws_decode (w : SkipWhitespace) (input : List Nat) :
    Except DecodeError (List Nat) :=
  SkipWhitespace.decode w input

/-- `DecoderWrapper<Pem>::decode_len` (`src/macros.rs` lines 145–147):
`Decoder::Base64.do_decode_len(input, Some(Skipper::Pem))`. -/
def DecoderWrapper.pem_decode_len (input : List Nat) : Except DecodeError Nat :=
  Decoder.do_decode_len Decoder.Base64 input (some Skipper.Pem)

/-- Modelled from the spec: `Pem::decode` (`wrappers.rs` is not under `src/`)
— Base64 decoding with the PEM filter active. -/
def Pem.decode (input : List Nat) : Except DecodeError (List Nat) :=
  Decoder.decode Decoder.Base64 input (some Skipper.Pem)

/-- `DecoderWrapper<Pem>::decode` (`src/macros.rs` lines 149–151):
`Pem::decode(input)`. -/
def DecoderWrapper.pem_decode (input : List Nat) : Except DecodeError (List Nat) :=
  Pem.decode input

/-- The `decode!` macro (`src/macros.rs` lines 52–58): evaluate
`DecoderWrapper(decoder).decode_len(bytes)` to size the output array, then
`DecoderWrapper(decoder).decode(bytes)`; a failure of either const evaluation
aborts compilation, modelled as an error result. -/
def decodeBang (d : Decoder) (input : List Nat) : Except DecodeError (List Nat) :=
  match DecoderWrapper.decode_len d input with
  | Except.error e => Except.error e
  | Except.ok _ => DecoderWrapper.decode d input

/-- Every alphabet carries between 1 and 8 bits per symbol. -/
theorem symBits_bounds (d : Decoder) : 1 ≤ symBits d ∧ symBits d ≤ 8 := by
  cases d with
  | custom syms =>
    simp only [symBits]
    split
    · omega
    · split <;> omega
  | _ => simp [symBits]

/-- The bit-packer emits exactly `(n + |vs| * bits) / 8` bytes when it starts
with `n < 8` held bits. -/
theorem pack_length (bits : Nat) (h1 : 1 ≤ bits) (h8 : bits ≤ 8) :
    ∀ (vs : List Nat) (acc n : Nat), n < 8 →
      (pack bits vs acc n).1.length = (n + vs.length * bits) / 8 := by
  intro vs
  induction vs with
  | nil =>
    intro acc n hn
    simp [pack]
    omega
  | cons v rest ih =>
    intro acc n hn
    by_cases hc : 8 ≤ n + bits
    · have hrec := ih ((acc * 2 ^ bits + v) % 2 ^ (n + bits - 8)) (n + bits - 8) (by omega)
      simp only [pack, if_pos hc, List.length_cons, hrec, Nat.succ_mul]
      generalize rest.length * bits = M
      omega
    · have hrec := ih (acc * 2 ^ bits + v) (n + bits) (by omega)
      simp only [pack, if_neg hc, List.length_cons, hrec, Nat.succ_mul]
      generalize rest.length * bits = M
      omega

/-- The counting scan of §4.4 is the validating symbol scan of §4.2 with the
values replaced by their count: the two passes validate identically. -/
theorem lenScan_eq_scanSyms (d : Decoder) :
    ∀ (l : List Nat) (ps : Bool),
      lenScan d l ps = (scanSyms d l ps).map (fun x => (x.1.length, x.2)) := by
  intro l
  induction l with
  | nil => intro ps; simp [lenScan, scanSyms, Except.map]
  | cons b rest ih =>
    intro ps
    simp only [lenScan, scanSyms]
    by_cases hp : (hasPadding d && b == 61) = true
    · simp only [if_pos hp, ih true]
      cases hs : scanSyms d rest true with
      | ok vp => simp [Except.map]
      | error e => simp [Except.map]
    · simp only [if_neg hp]
      cases hv : value_of d b with
      | none => simp [Except.map]
      | some v =>
        by_cases hps : ps = true
        · simp [hps, Except.map]
        · have hps' : ps = false := by
            cases ps
            · rfl
            · exact absurd rfl hps
          simp only [hps', if_neg (by simp : ¬ (false = true)), ih false]
          cases hs : scanSyms d rest false with
          | ok vp => simp [Except.map]
          | error e => simp [Except.map]

/-- C1: for every decoder configuration (any decoder, any filter) and every
input the engine accepts, `do_decode_len` returns exactly the length of the
byte list `decode` produces; every input rejected by length computation is
also rejected by `decode`; and the `decode!` macro, which sizes its output
with `DecoderWrapper.decode_len` and then decodes, always yields an array of
exactly that size. -/
theorem decode_len_agrees_with_decode (d : Decoder) (sk : Option Skipper) (input : List Nat) :
    (∀ bs, Decoder.decode d input sk = Except.ok bs →
      Decoder.do_decode_len d input sk = Except.ok bs.length) ∧
    (∀ e, Decoder.do_decode_len d input sk = Except.error e →
      ∃ e2, Decoder.decode d input sk = Except.error e2) ∧
    (∀ bs, decodeBang d input = Except.ok bs →
      DecoderWrapper.decode_len d input = Except.ok bs.length) := by
  have hbits := symBits_bounds d
  have h1 : ∀ (sk2 : Option Skipper) (bs : List Nat),
      Decoder.decode d input sk2 = Except.ok bs →
      Decoder.do_decode_len d input sk2 = Except.ok bs.length := by
    intro sk2 bs h
    unfold Decoder.decode at h
    unfold Decoder.do_decode_len
    cases hf : applyFilter sk2 input with
    | error e => rw [hf] at h; simp at h
    | ok stream =>
      rw [hf] at h
      simp only [] at h ⊢
      rw [lenScan_eq_scanSyms]
      cases hs : scanSyms d stream false with
      | error e => rw [hs] at h; simp at h
      | ok vp =>
        obtain ⟨vs, p⟩ := vp
        rw [hs] at h
        simp only [Except.map]
        by_cases hpad : padOk d vs.length p = true
        · simp only [if_pos hpad] at h ⊢
          by_cases hacc : (pack (symBits d) vs 0 0).2.1 = 0
          · simp only [if_pos hacc] at h
            have hbs : (pack (symBits d) vs 0 0).1 = bs := by
              cases h
              rfl
            have hlen := pack_length (symBits d) hbits.1 hbits.2 vs 0 0 (by omega)
            rw [← hbs, hlen]
            simp
          · simp only [if_neg hacc] at h
            simp at h
        · simp only [if_neg hpad] at h
          simp at h
  have h2 : ∀ (sk2 : Option Skipper) (e : DecodeError),
      Decoder.do_decode_len d input sk2 = Except.error e →
      ∃ e2, Decoder.decode d input sk2 = Except.error e2 := by
    intro sk2 e h
    unfold Decoder.do_decode_len at h
    unfold Decoder.decode
    cases hf : applyFilter sk2 input with
    | error e1 => exact ⟨e1, rfl⟩
    | ok stream =>
      rw [hf] at h
      simp only [] at h ⊢
      rw [lenScan_eq_scanSyms] at h
      cases hs : scanSyms d stream false with
      | error e1 => exact ⟨e1, rfl⟩
      | ok vp =>
        obtain ⟨vs, p⟩ := vp
        rw [hs] at h
        simp only [Except.map] at h
        by_cases hpad : padOk d vs.length p = true
        · simp [hpad] at h
        · refine ⟨DecodeError.invalidPadding, ?_⟩
          simp [hpad]
  refine ⟨h1 sk, h2 sk, ?_⟩
  intro bs h
  unfold decodeBang at h
  cases hl : DecoderWrapper.decode_len d input with
  | error e => rw [hl] at h; simp at h
  | ok n =>
    rw [hl] at h
    simp only [] at h
    have h3 := h1 none bs h
    have hl2 : Decoder.do_decode_len d input none = Except.ok n := hl
    rw [hl2] at h3
    injection h3 with hn
    rw [hn]

/-- Witness for C1 at concrete inputs: base64 `"VGVzdA=="` decodes to `"Test"`
(4 bytes) and the computed length is 4; the invalid input `"!"` is rejected by
both passes. -/
theorem decode_len_agrees_with_decode_witness :
    Decoder.do_decode_len Decoder.Base64 (str "VGVzdA==") none = Except.ok (str "Test").length ∧
    (∃ e2, Decoder.decode Decoder.Base64 (str "!") none = Except.error e2) ∧
    DecoderWrapper.decode_len Decoder.Base64 (str "VGVzdA==") = Except.ok (str "Test").length :=
  ⟨(decode_len_agrees_with_decode Decoder.Base64 none (str "VGVzdA==")).1 (str "Test") rfl,
    (decode_len_agrees_with_decode Decoder.Base64 none (str "!")).2.1
      DecodeError.invalidSymbol rfl,
    (decode_len_agrees_with_decode Decoder.Base64 none (str "VGVzdA==")).2.2 (str "Test") rfl⟩

/-- Interleave runs of bytes between the elements of a symbol sequence:
`alternate [r0, r1, ..] [s1, s2, ..] = r0 ++ s1 :: r1 ++ s2 :: ..`, with any
surplus runs appended at the end. -/
def alternate : List (List Nat) → List Nat → List Nat
  | [], syms => syms
  | r :: rs, [] => r ++ alternate rs []
  | r :: rs, s :: ss => r ++ s :: alternate rs ss

/-- Removing whitespace from an interleaving of whitespace runs and
non-whitespace symbols recovers exactly the symbols. -/
theorem skipWs_alternate :
    ∀ (runs : List (List Nat)) (syms : List Nat),
      (∀ r ∈ runs, ∀ b ∈ r, isWs b = true) →
      (∀ b ∈ syms, isWs b = false) →
      skipWs (alternate runs syms) = syms := by
  intro runs
  induction runs with
  | nil =>
    intro syms _ hs
    simp only [alternate, skipWs]
    rw [List.filter_eq_self]
    intro b hb
    simp [hs b hb]
  | cons r rs ih =>
    intro syms hr hs
    have hrws : ∀ b ∈ r, isWs b = true := hr r (by simp)
    have hrs : ∀ x ∈ rs, ∀ b ∈ x, isWs b = true := fun x hx => hr x (by simp [hx])
    have hrnil : skipWs r = [] := by
      simp only [skipWs]
      rw [List.filter_eq_nil_iff]
      intro b hb
      simp [hrws b hb]
    cases syms with
    | nil =>
      simp only [alternate, skipWs, List.filter_append]
      have := ih [] hrs (by intro b hb; cases hb)
      simp only [skipWs] at hrnil this
      rw [hrnil, this]
      rfl
    | cons s ss =>
      have hsws : isWs s = false := hs s (by simp)
      have hss : ∀ b ∈ ss, isWs b = false := fun b hb => hs b (by simp [hb])
      simp only [alternate, skipWs, List.filter_append, List.filter_cons]
      have := ih ss hrs hss
      simp only [skipWs] at hrnil this
      rw [hrnil, this]
      simp [hsws]

/-- C6: with the whitespace filter active, interleaving arbitrary all-whitespace
runs between the symbols of a whitespace-free input changes neither the
computed length nor the decoded bytes, relative to the unfiltered decode of
the bare symbol sequence. -/
theorem whitespace_insertion_invariant (d : Decoder) (runs : List (List Nat)) (syms : List Nat)
    (hr : ∀ r ∈ runs, ∀ b ∈ r, isWs b = true) (hs : ∀ b ∈ syms, isWs b = false) :
    DecoderWrapper.ws_decode ⟨d⟩ (alternate runs syms) = DecoderWrapper.decode d syms ∧
    DecoderWrapper.ws_decode_len ⟨d⟩ (alternate runs syms) = DecoderWrapper.decode_len d syms := by
  have hskip : skipWs (alternate runs syms) = syms := skipWs_alternate runs syms hr hs
  constructor
  · show Decoder.decode d (alternate runs syms) (some Skipper.Whitespace) =
      Decoder.decode d syms none
    unfold Decoder.decode
    simp only [applyFilter, hskip]
  · show Decoder.do_decode_len d (alternate runs syms) (some Skipper.Whitespace) =
      Decoder.do_decode_len d syms none
    unfold Decoder.do_decode_len
    simp only [applyFilter, hskip]

/-- Witness for C6: hex `"c0ff ee00 beef"` (the `src/macros.rs` doc example)
with whitespace skipped decodes exactly like `"c0ffee00beef"` without a
filter. -/
theorem whitespace_insertion_invariant_witness :
    (∀ r ∈ [([] : List Nat), [], [], [], str " ", [], [], [], str " ", [], [], []],
      ∀ b ∈ r, isWs b = true) ∧
    (∀ b ∈ str "c0ffee00beef", isWs b = false) ∧
    DecoderWrapper.ws_decode ⟨Decoder.Hex⟩
        (alternate [[], [], [], [], str " ", [], [], [], str " ", [], [], []]
          (str "c0ffee00beef")) =
      DecoderWrapper.decode Decoder.Hex (str "c0ffee00beef") :=
  ⟨by decide, by decide,
    (whitespace_insertion_invariant Decoder.Hex
      [[], [], [], [], str " ", [], [], [], str " ", [], [], []]
      (str "c0ffee00beef") (by decide) (by decide)).1⟩

/-- `splitLines` never returns an empty list of lines. -/
theorem splitLines_ne_nil : ∀ l : List Nat, splitLines l ≠ [] := by
  intro l
  cases l with
  | nil => simp [splitLines]
  | cons b rest =>
    simp only [splitLines]
    by_cases hb : b = 10
    · simp [hb]
    · simp only [if_neg hb]
      cases h : splitLines rest <;> simp

/-- Splitting distributes over an LF separator. -/
theorem splitLines_append_cons (a b : List Nat) :
    splitLines (a ++ 10 :: b) = splitLines a ++ splitLines b := by
  induction a with
  | nil => simp [splitLines]
  | cons c a ih =>
    simp only [List.cons_append, splitLines]
    by_cases hc : c = 10
    · simp [hc, ih]
    · rw [if_neg hc, if_neg hc]
      simp only [List.append_eq]
      rw [ih]
      cases h : splitLines a with
      | nil => exact absurd h (splitLines_ne_nil a)
      | cons l ls => simp

/-- A list without LF bytes is a single line. -/
theorem splitLines_of_no_lf : ∀ l : List Nat, 10 ∉ l → splitLines l = [l] := by
  intro l
  induction l with
  | nil => intro _; rfl
  | cons b rest ih =>
    intro h
    have hb : b ≠ 10 := fun hb => h (by simp [hb])
    have hrest : 10 ∉ rest := fun hr => h (by simp [hr])
    simp only [splitLines, if_neg hb, ih hrest]

/-- Joining the lines of a byte list recovers the bytes minus the LF
separators. -/
theorem join_splitLines : ∀ p : List Nat,
    (splitLines p).flatten = p.filter (fun b => !(b == 10)) := by
  intro p
  induction p with
  | nil => simp [splitLines]
  | cons b rest ih =>
    simp only [splitLines, List.filter_cons]
    by_cases hb : b = 10
    · simp [hb, ih]
    · simp only [if_neg hb]
      cases h : splitLines rest with
      | nil => exact absurd h (splitLines_ne_nil rest)
      | cons l ls =>
        rw [h] at ih
        simp only [List.flatten_cons] at ih ⊢
        simp only [List.cons_append, ih]
        simp [hb]

/-- Whitespace-skipping does not see the LF separators dropped by line
splitting. -/
theorem skipWs_join_splitLines (p : List Nat) :
    skipWs ((splitLines p).flatten) = skipWs p := by
  rw [join_splitLines]
  simp only [skipWs, List.filter_filter]
  apply List.filter_congr
  intro b _
  by_cases hb : b = 10
  · simp [hb, isWs]
  · simp [hb]

/-- After the BEGIN banner, the PEM filter collects exactly the lines up to
the first END banner. -/
theorem pemAfterBegin_spec :
    ∀ (ls : List (List Nat)) (e : List Nat) (ts : List (List Nat)),
      (∀ l ∈ ls, isEndBanner l = false) → isEndBanner e = true →
      pemAfterBegin (ls ++ e :: ts) = Except.ok ls.flatten := by
  intro ls
  induction ls with
  | nil =>
    intro e ts _ he
    simp [pemAfterBegin, he]
  | cons l ls ih =>
    intro e ts hls he
    have hl : isEndBanner l = false := hls l (by simp)
    have hls' : ∀ x ∈ ls, isEndBanner x = false := fun x hx => hls x (by simp [hx])
    simp only [List.cons_append, pemAfterBegin, List.append_eq]
    rw [if_neg (by simp [hl]), ih e ts hls' he]
    simp

/-- The PEM filter on a well-formed envelope produces the whitespace-skipped
payload. -/
theorem applyFilter_pem (bLine eLine payload trailing : List Nat)
    (hb10 : 10 ∉ bLine) (he10 : 10 ∉ eLine)
    (hb : isBeginBanner bLine = true) (he : isEndBanner eLine = true)
    (hpl : ∀ l ∈ splitLines payload, isEndBanner l = false) :
    applyFilter (some Skipper.Pem) (bLine ++ 10 :: (payload ++ 10 :: (eLine ++ 10 :: trailing))) =
      Except.ok (skipWs payload) := by
  have hsplit : splitLines (bLine ++ 10 :: (payload ++ 10 :: (eLine ++ 10 :: trailing))) =
      [bLine] ++ (splitLines payload ++ ([eLine] ++ splitLines trailing)) := by
    rw [splitLines_append_cons, splitLines_append_cons, splitLines_append_cons]
    rw [splitLines_of_no_lf bLine hb10, splitLines_of_no_lf eLine he10]
  simp only [applyFilter, pemPayload, hsplit]
  simp only [List.singleton_append, List.cons_append, List.append_eq,
    List.nil_append, pemFindBegin, hb, if_pos]
  rw [pemAfterBegin_spec (splitLines payload) eLine (splitLines trailing) hpl he]
  simp only [skipWs_join_splitLines]

/-- C5: for a well-formed PEM input — BEGIN banner line, payload lines, END
banner line, arbitrary trailing bytes — decoding under the `Pem` wrapper
yields exactly the bytes of the whitespace-filtered Base64 decode of the
payload alone, and the computed lengths agree likewise: banners and trailing
content contribute nothing. -/
theorem pem_decodes_payload (bLine eLine payload trailing : List Nat)
    (hb10 : 10 ∉ bLine) (he10 : 10 ∉ eLine)
    (hb : isBeginBanner bLine = true) (he : isEndBanner eLine = true)
    (hpl : ∀ l ∈ splitLines payload, isEndBanner l = false) :
    DecoderWrapper.pem_decode (bLine ++ 10 :: (payload ++ 10 :: (eLine ++ 10 :: trailing))) =
      DecoderWrapper.ws_decode ⟨Decoder.Base64⟩ payload ∧
    DecoderWrapper.pem_decode_len (bLine ++ 10 :: (payload ++ 10 :: (eLine ++ 10 :: trailing))) =
      DecoderWrapper.ws_decode_len ⟨Decoder.Base64⟩ payload := by
  have hf := applyFilter_pem bLine eLine payload trailing hb10 he10 hb he hpl
  constructor
  · show Decoder.decode Decoder.Base64
        (bLine ++ 10 :: (payload ++ 10 :: (eLine ++ 10 :: trailing))) (some Skipper.Pem) =
      Decoder.decode Decoder.Base64 payload (some Skipper.Whitespace)
    unfold Decoder.decode
    rw [hf]
    simp [applyFilter]
  · show Decoder.do_decode_len Decoder.Base64
        (bLine ++ 10 :: (payload ++ 10 :: (eLine ++ 10 :: trailing))) (some Skipper.Pem) =
      Decoder.do_decode_len Decoder.Base64 payload (some Skipper.Whitespace)
    unfold Decoder.do_decode_len
    rw [hf]
    simp [applyFilter]

/-- Witness for C5: a concrete PEM envelope around the payload
`"VGVz\ndA=="` with trailing garbage decodes exactly like the
whitespace-filtered payload. -/
theorem pem_decodes_payload_witness :
    (10 ∉ str "-----BEGIN X-----" ∧ 10 ∉ str "-----END X-----" ∧
      isBeginBanner (str "-----BEGIN X-----") = true ∧
      isEndBanner (str "-----END X-----") = true ∧
      (∀ l ∈ splitLines (str "VGVz dA=="), isEndBanner l = false)) ∧
    DecoderWrapper.pem_decode
        (str "-----BEGIN X-----" ++ 10 :: (str "VGVz dA==" ++ 10 ::
          (str "-----END X-----" ++ 10 :: str "trailing garbage"))) =
      DecoderWrapper.ws_decode ⟨Decoder.Base64⟩ (str "VGVz dA==") :=
  ⟨⟨by decide, by decide, by decide, by decide, by decide⟩,
    (pem_decodes_payload (str "-----BEGIN X-----") (str "-----END X-----")
      (str "VGVz dA==") (str "trailing garbage")
      (by decide) (by decide) (by decide) (by decide) (by decide)).1⟩

/-- Alphabet passed by `decode_base32!` (`src/macros.rs` line 82). -/
def base32Alphabet : List Nat := str "ABCDEFGHIJKLMNOPQRSTUVWXYZ234567"

/-- Alphabet passed by `decode_base32_hex!` (`src/macros.rs` line 92). -/
def base32HexAlphabet : List Nat := str "0123456789ABCDEFGHIJKLMNOPQRSTUV"

/-- Alphabet passed by `decode_base32_dnssec!` (`src/macros.rs` line 105). -/
def dnssecAlphabet : List Nat := str "0123456789abcdefghijklmnopqrstuv"

/-- Alphabet passed by `decode_base32_dnscurve!` (`src/macros.rs` line 115). -/
def dnscurveAlphabet : List Nat := str "0123456789bcdfghjklmnpqrstuvwxyz"

/-- The `decode_base64!` macro (`src/macros.rs` lines 62–66): its body is the
block `{ decode!(Decoder::Base64, bytes); }` — the inner `decode!` is an
expression statement terminated by `;`, so the block's value is the unit
value and the decoded array is discarded. -/
def decode_base64 (input : List Nat) : Except DecodeError Unit :=
  match decodeBang Decoder.Base64 input with
  | Except.error e => Except.error e
  | Except.ok _ => Except.ok ()

/-- The `decode_base64_url!` macro (`src/macros.rs` lines 70–74), same
semicolon-terminated block shape. -/
def decode_base64_url (input : List Nat) : Except DecodeError Unit :=
  match decodeBang Decoder.Base64Url input with
  | Except.error e => Except.error e
  | Except.ok _ => Except.ok ()

/-- The `decode_base32!` macro (`src/macros.rs` lines 80–84), same
semicolon-terminated block shape. -/
def decode_base32 (input : List Nat) : Except DecodeError Unit :=
  match decodeBang (Decoder.custom base32Alphabet) input with
  | Except.error e => Except.error e
  | Except.ok _ => Except.ok ()

/-- The `decode_base32_hex!` macro (`src/macros.rs` lines 90–94), same
semicolon-terminated block shape. -/
def decode_base32_hex (input : List Nat) : Except DecodeError Unit :=
  match decodeBang (Decoder.custom base32HexAlphabet) input with
  | Except.error e => Except.error e
  | Except.ok _ => Except.ok ()

/-- The `decode_base32_dnssec!` macro (`src/macros.rs` lines 103–107), same
semicolon-terminated block shape. -/
def decode_base32_dnssec (input : List Nat) : Except DecodeError Unit :=
  match decodeBang (Decoder.custom dnssecAlphabet) input with
  | Except.error e => Except.error e
  | Except.ok _ => Except.ok ()

/-- The `decode_base32_dnscurve!` macro (`src/macros.rs` lines 113–117), same
semicolon-terminated block shape. -/
def decode_base32_dnscurve (input : List Nat) : Except DecodeError Unit :=
  match decodeBang (Decoder.custom dnscurveAlphabet) input with
  | Except.error e => Except.error e
  | Except.ok _ => Except.ok ()

/-- Printable ASCII. -/
def isPrintable (b : Nat) : Bool := 32 ≤ b && b ≤ 126

/-- Pairwise distinctness of a symbol list. -/
def distinctList : List Nat → Bool
  | [] => true
  | b :: rest => !rest.contains b && distinctList rest

/-- Modelled from the spec: §3/§4.1 — the configuration check of
`Decoder::custom`: the symbol sequence must have length 16, 32 or 64 and its
symbols must be distinct; anything else is a configuration error reported
before any decode proceeds. -/
def customValid (syms : List Nat) : Bool :=
  (syms.length == 16 || syms.length == 32 || syms.length == 64) && distinctList syms

/-- The Base32 mapping asserted by the claim: `A`–`Z` to 0–25, then `2`–`7`
to 26–31, everything else invalid. -/
def base32SpecValue (b : Nat) : Option Nat :=
  if 65 ≤ b ∧ b ≤ 90 then some (b - 65)
  else if 50 ≤ b ∧ b ≤ 55 then some (b - 50 + 26)
  else none

/-- The Base32Hex mapping asserted by the claim: `0`–`9` to 0–9, then `A`–`V`
to 10–31, everything else invalid. -/
def base32HexSpecValue (b : Nat) : Option Nat :=
  if 48 ≤ b ∧ b ≤ 57 then some (b - 48)
  else if 65 ≤ b ∧ b ≤ 86 then some (b - 65 + 10)
  else none

set_option maxRecDepth 8192 in
/-- C7: the Base32 preset alphabet maps exactly `A`–`Z`, `2`–`7` to 0–31 in
order and the Base32Hex preset maps exactly `0`–`9`, `A`–`V` to 0–31 in
order; every other byte is invalid for them, and both presets are unpadded. -/
theorem base32_preset_alphabets_exact :
    (∀ b : Fin 256,
      value_of (Decoder.custom base32Alphabet) b.val = base32SpecValue b.val ∧
      value_of (Decoder.custom base32HexAlphabet) b.val = base32HexSpecValue b.val) ∧
    hasPadding (Decoder.custom base32Alphabet) = false ∧
    hasPadding (Decoder.custom base32HexAlphabet) = false := by
  refine ⟨?_, rfl, rfl⟩
  decide

/-- C8: base64 `"VGVzdA=="` decodes to the 4 bytes of `"Test"`, and
`"VGVzdA="` (wrong padding count) is rejected with an invalid-padding error.
The claim's final clause is conditional on the alphabet mandating padding;
the spec-modelled Base64 decoder accepts correctly-zero-padded unpadded
input, so the clause is vacuous — the third conjunct records that behaviour. -/
theorem base64_padding_cases :
    decodeBang Decoder.Base64 (str "VGVzdA==") = Except.ok (str "Test") ∧
    decodeBang Decoder.Base64 (str "VGVzdA=") = Except.error DecodeError.invalidPadding ∧
    decodeBang Decoder.Base64 (str "VGVzdA") = Except.ok (str "Test") :=
  ⟨rfl, rfl, rfl⟩

/-- C9: each convenience macro evaluates the inner `decode!` (so its errors
still surface) but its block value is the unit value — the decoded byte array
is discarded, never returned to the caller. -/
theorem convenience_presets_discard_output (input : List Nat) (bs : List Nat) :
    (decodeBang Decoder.Base64 input = Except.ok bs → decode_base64 input = Except.ok ()) ∧
    (decodeBang Decoder.Base64Url input = Except.ok bs → decode_base64_url input = Except.ok ()) ∧
    (decodeBang (Decoder.custom base32Alphabet) input = Except.ok bs →
      decode_base32 input = Except.ok ()) ∧
    (decodeBang (Decoder.custom base32HexAlphabet) input = Except.ok bs →
      decode_base32_hex input = Except.ok ()) ∧
    (decodeBang (Decoder.custom dnssecAlphabet) input = Except.ok bs →
      decode_base32_dnssec input = Except.ok ()) ∧
    (decodeBang (Decoder.custom dnscurveAlphabet) input = Except.ok bs →
      decode_base32_dnscurve input = Except.ok ()) := by
  refine ⟨?_, ?_, ?_, ?_, ?_, ?_⟩ <;> intro h
  · simp [decode_base64, h]
  · simp [decode_base64_url, h]
  · simp [decode_base32, h]
  · simp [decode_base32_hex, h]
  · simp [decode_base32_dnssec, h]
  · simp [decode_base32_dnscurve, h]

/-- Witness for C9 at concrete accepted inputs of each preset. -/
theorem convenience_presets_discard_output_witness :
    decode_base64 (str "VGVzdA==") = Except.ok () ∧
    decode_base64_url (str "VGVzdA==") = Except.ok () ∧
    decode_base32 (str "ME") = Except.ok () ∧
    decode_base32_hex (str "C4") = Except.ok () ∧
    decode_base32_dnssec (str "c4") = Except.ok () ∧
    decode_base32_dnscurve (str "d4") = Except.ok () :=
  ⟨(convenience_presets_discard_output (str "VGVzdA==") (str "Test")).1 rfl,
    (convenience_presets_discard_output (str "VGVzdA==") (str "Test")).2.1 rfl,
    (convenience_presets_discard_output (str "ME") [97]).2.2.1 rfl,
    (convenience_presets_discard_output (str "C4") [97]).2.2.2.1 rfl,
    (convenience_presets_discard_output (str "c4") [97]).2.2.2.2.1 rfl,
    (convenience_presets_discard_output (str "d4") [97]).2.2.2.2.2 rfl⟩

/-- C3 (code bug): the convenience macros do not return the decoded array —
`decode_base64!` on `"VGVzdA=="` evaluates to the unit value, while the
generic `decode!` with the same alphabet on the same input produces the 4
decoded bytes of `"Test"`. -/
theorem convenience_preset_loses_output :
    decode_base64 (str "VGVzdA==") = Except.ok () ∧
    decodeBang Decoder.Base64 (str "VGVzdA==") = Except.ok (str "Test") :=
  ⟨rfl, rfl⟩

/-- C4 (code bug): the Base32-DNSSEC preset is case-sensitive — the custom
table contains only the lowercase symbols, so `"co"` decodes to `[102]` while
its uppercase spelling `"CO"` is rejected as an invalid symbol, contradicting
the case-insensitivity stated in the macro's own documentation. -/
theorem dnssec_preset_rejects_uppercase :
    decodeBang (Decoder.custom dnssecAlphabet) (str "co") = Except.ok [102] ∧
    decodeBang (Decoder.custom dnssecAlphabet) (str "CO") =
      Except.error DecodeError.invalidSymbol ∧
    value_of (Decoder.custom dnssecAlphabet) 99 = some 12 ∧
    value_of (Decoder.custom dnssecAlphabet) 67 = none :=
  ⟨rfl, rfl, rfl, rfl⟩

/-- C10: each of the four base32 preset alphabet strings consists of exactly
32 pairwise-distinct printable ASCII bytes, so the `Decoder::custom`
configuration check (length 16, 32 or 64 with distinct symbols) passes for
every preset. -/
theorem base32_preset_alphabets_valid :
    (base32Alphabet.length = 32 ∧ distinctList base32Alphabet = true ∧
      (∀ b ∈ base32Alphabet, isPrintable b = true) ∧ customValid base32Alphabet = true) ∧
    (base32HexAlphabet.length = 32 ∧ distinctList base32HexAlphabet = true ∧
      (∀ b ∈ base32HexAlphabet, isPrintable b = true) ∧ customValid base32HexAlphabet = true) ∧
    (dnssecAlphabet.length = 32 ∧ distinctList dnssecAlphabet = true ∧
      (∀ b ∈ dnssecAlphabet, isPrintable b = true) ∧ customValid dnssecAlphabet = true) ∧
    (dnscurveAlphabet.length = 32 ∧ distinctList dnscurveAlphabet = true ∧
      (∀ b ∈ dnscurveAlphabet, isPrintable b = true) ∧ customValid dnscurveAlphabet = true) := by
  decide

end ConstDecoder
